import Mathlib

/-!
Verification of the Mustache template engine (single header `mustache.hpp`)
against its natural-language specification.  The C++ source is shallowly
embedded: strings become `List Char`, the `Data` variant becomes an inductive
type, the parser and renderer become fuel-indexed total functions that follow
the source control flow statement by statement.
-/

namespace Mustache

abbrev Str := List Char

/-- Embeds the C locale `isspace` on the ASCII range, as used by `trim` and
`isSetDelimiterValid` in the source. -/
def isspace (c : Char) : Bool :=
  c = ' ' || c = '\t' || c = '\n' || c = '\x0b' || c = '\x0c' || c = '\r'

/-- Embeds `trim` (mustache.hpp lines 40-51): drop leading whitespace, then
drop trailing whitespace down to that point. -/
def trim (s : Str) : Str :=
  ((s.dropWhile isspace).reverse.dropWhile isspace).reverse

/-- Per-character body of the `switch` inside `escape`
(mustache.hpp lines 57-78). -/
def escapeChar (c : Char) : Str :=
  if c = '&' then "&amp;".data
  else if c = '<' then "&lt;".data
  else if c = '>' then "&gt;".data
  else if c = '"' then "&quot;".data
  else if c = '\'' then "&apos;".data
  else [c]

/-- Embeds `escape` (mustache.hpp lines 53-80). -/
def escape : Str → Str
  | [] => []
  | c :: rest => escapeChar c ++ escape rest

/-- Decimal rendering of a `Nat`, as `operator<<` on a stream does for the
byte offsets inside error messages. -/
def natToStrAux : Nat → Nat → Str
  | 0, _ => []
  | fuel + 1, n =>
    let d : Char :=
      if n % 10 = 0 then '0' else if n % 10 = 1 then '1' else if n % 10 = 2 then '2'
      else if n % 10 = 3 then '3' else if n % 10 = 4 then '4' else if n % 10 = 5 then '5'
      else if n % 10 = 6 then '6' else if n % 10 = 7 then '7' else if n % 10 = 8 then '8'
      else '9'
    if n < 10 then [d] else natToStrAux fuel (n / 10) ++ [d]

def natToStr (n : Nat) : Str := natToStrAux (n + 1) n

/-- Embeds the `Data` variant (mustache.hpp lines 86-292).  Objects are
association lists (insertion order; `unordered_map::find` returns the single
stored binding, modelled by first-match lookup).  A `Partial` is a nullary
producer of template source, modelled by the string it produces; a `Lambda`
is a `string -> string` function.  `trueV`/`falseV`/`invalid` carry no
payload. -/
inductive Data where
  | object : List (Str × Data) → Data
  | string : Str → Data
  | list : List Data → Data
  | trueV : Data
  | falseV : Data
  | partialV : Str → Data
  | lambda : (Str → Str) → Data
  | invalid : Data

/-- Embeds `Data::get` (lines 233-242): name lookup on an Object, absent on
every other kind. -/
def Data.get (d : Data) (name : Str) : Option Data :=
  match d with
  | .object kvs => (kvs.find? (fun kv => kv.1 = name)).map (fun kv => kv.2)
  | _ => none

def Data.isString : Data → Bool
  | .string _ => true
  | _ => false

def Data.isFalse : Data → Bool
  | .falseV => true
  | _ => false

def Data.isEmptyList : Data → Bool
  | .list xs => xs.isEmpty
  | _ => false

def Data.isNonEmptyList : Data → Bool
  | .list xs => !xs.isEmpty
  | _ => false

def Data.isLambda : Data → Bool
  | .lambda _ => true
  | _ => false

def Data.isPartialType : Data → Bool
  | .partialV _ => true
  | _ => false

def Data.stringValue : Data → Str
  | .string s => s
  | _ => []

def Data.listValue : Data → List Data
  | .list xs => xs
  | _ => []

def Data.lambdaFn : Data → (Str → Str)
  | .lambda f => f
  | _ => fun _ => []

def Data.partialSrc : Data → Str
  | .partialV s => s
  | _ => []

/-- Embeds `DelimiterSet` (lines 329-347).  `dbegin`/`dend` stand for the
`begin`/`end` members (`end` is reserved in Lean). -/
structure DelimiterSet where
  dbegin : Str
  dend : Str
deriving DecidableEq

def defaultBegin : Str := ['{', '{']

def defaultEnd : Str := ['}', '}']

def DelimiterSet.isDefault (d : DelimiterSet) : Bool :=
  d.dbegin = defaultBegin && d.dend = defaultEnd

def defaultDelimiters : DelimiterSet := ⟨defaultBegin, defaultEnd⟩

/-- Embeds `Tag::Type` (lines 351-361). -/
inductive TagType where
  | invalid
  | variableTag
  | unescapedVariable
  | sectionBegin
  | sectionEnd
  | sectionBeginInverted
  | comment
  | partialTag
  | setDelimiter
deriving DecidableEq

/-- Embeds `Tag` (lines 349-372). -/
structure Tag where
  name : Str := []
  type : TagType := .invalid
  sectionText : Option Str := none
  delimiterSet : Option DelimiterSet := none
deriving DecidableEq

def Tag.isSectionBegin (t : Tag) : Bool :=
  t.type = .sectionBegin || t.type = .sectionBeginInverted

def Tag.isSectionEnd (t : Tag) : Bool :=
  t.type = .sectionEnd

/-- Embeds `Component` (lines 374-385): a tree node with literal text, a tag,
children and the byte offset of its start. -/
inductive Component where
  | mk (text : Str) (tag : Tag) (children : List Component) (position : Nat)

def Component.text : Component → Str
  | .mk t _ _ _ => t

def Component.tag : Component → Tag
  | .mk _ tg _ _ => tg

def Component.children : Component → List Component
  | .mk _ _ cs _ => cs

def Component.position : Component → Nat
  | .mk _ _ _ p => p

/-- Embeds `Component::isText` (line 380). -/
def Component.isText (c : Component) : Bool :=
  c.tag.type = .invalid

/-- Splits at every occurrence of the delimiter, always yielding
(number of delimiters + 1) parts. -/
def splitAll (d : Char) : Str → List Str
  | [] => [[]]
  | c :: rest =>
    let r := splitAll d rest
    if c = d then [] :: r
    else
      match r with
      | [] => [[c]]
      | p :: ps => (c :: p) :: ps

/-- Embeds `Context::split` (lines 404-412), which loops `std::getline`:
an empty input yields no parts, and a trailing delimiter yields no trailing
empty part (`getline` fails once the stream is exhausted). -/
def splitD (d : Char) (s : Str) : List Str :=
  if s = [] then []
  else if s.getLast? = some d then (splitAll d s).dropLast
  else splitAll d s

/-- Inner loop of `Context::get` (lines 426-431): walk the name segments
left to right from the given value, absent as soon as one segment fails. -/
def resolvePath : Data → List Str → Option Data
  | d, [] => some d
  | d, n :: rest =>
    match d.get n with
    | none => none
    | some v => resolvePath v rest

/-- Outer loop of `Context::get` (lines 424-435): try each frame from the
innermost outward, restarting from the first segment each time. -/
def ctxGetLoop : List Data → List Str → Option Data
  | [], _ => none
  | item :: rest, names =>
    match resolvePath item names with
    | some v => some v
    | none => ctxGetLoop rest names

/-- Embeds `Context::get` (lines 414-437).  The name `"."` returns the front
(innermost) frame; otherwise the name is split on dots (an empty split is
resized to one empty segment) and resolved per frame. -/
def ctxGet (items : List Data) (name : Str) : Option Data :=
  if name = ['.'] then items.head?
  else
    let names0 := splitD '.' name
    let names := if names0.isEmpty then [[]] else names0
    ctxGetLoop items names

/-- Embeds `Context::get_partial` (lines 439-448): single-segment lookup
scanning the frames innermost outward. -/
def ctxGetPartial (items : List Data) (name : Str) : Option Data :=
  items.findSome? (fun item => item.get name)

/-- Character at index `i`, with an irrelevant default; every use in the
embedding is guarded exactly as the bounds-checked `at()` calls are in the
source. -/
def charAt (s : Str) (i : Nat) : Char :=
  s.getD i ' '

/-- Substring `[a, a+len)`, as `substr`/the `StringType{input, pos, len}`
constructor do. -/
def subStr (s : Str) (a len : Nat) : Str :=
  (s.drop a).take len

/-- Index scan behind `strFind`. -/
def strFindAux (s pat : Str) : Nat → Nat → Option Nat
  | _, 0 => none
  | i, fuel + 1 =>
    if pat.isPrefixOf (s.drop i) then some i else strFindAux s pat (i + 1) fuel

/-- Embeds `StringType::find(pat, start)`: the first index at or after
`start` where `pat` occurs, `none` standing for `npos`. -/
def strFind (s pat : Str) (start : Nat) : Option Nat :=
  strFindAux s pat start (s.length + 1 - start)

/-- Index scan behind `findFirstNotOfFrom`. -/
def findFirstNotOfAux (s : Str) (c : Char) : Nat → Nat → Option Nat
  | _, 0 => none
  | i, fuel + 1 =>
    if i < s.length then
      if charAt s i = c then findFirstNotOfAux s c (i + 1) fuel else some i
    else none

/-- Embeds `StringType::find_first_not_of(c, start)` for a single character:
the first index at or after `start` whose character differs from `c`. -/
def findFirstNotOfFrom (s : Str) (c : Char) (start : Nat) : Option Nat :=
  findFirstNotOfAux s c start (s.length + 1 - start)

/-- Embeds `isSetDelimiterValid` (lines 619-627): no `=` and no whitespace. -/
def isSetDelimiterValid (delimiter : Str) : Bool :=
  delimiter.all (fun ch => !(ch = '=' || isspace ch))

/-- Embeds `parseSetDelimiterTag` (lines 629-652).  The source asserts that
the `find_first_not_of` search succeeds; the `none` branch of that match is
unreachable (see the safety theorem for claim C10) and is mapped to
rejection. -/
def parseSetDelimiterTag (contents : Str) : Option DelimiterSet :=
  if contents.length < 5 then none
  else if charAt contents (contents.length - 1) ≠ '=' then none
  else
    let contentsSubstr := trim (subStr contents 1 (contents.length - 2))
    match strFind contentsSubstr [' '] 0 with
    | none => none
    | some spacepos =>
      match findFirstNotOfFrom contentsSubstr ' ' (spacepos + 1) with
      | none => none
      | some nonspace =>
        let b := subStr contentsSubstr 0 spacepos
        let e := subStr contentsSubstr nonspace (contentsSubstr.length - nonspace)
        if isSetDelimiterValid b && isSetDelimiterValid e then some ⟨b, e⟩
        else none

/-- Embeds `parseTagContents` (lines 654-693). -/
def parseTagContents (isUnescapedVar : Bool) (contents : Str) : Tag :=
  if isUnescapedVar then { type := .unescapedVariable, name := contents }
  else
    match contents with
    | [] => { type := .variableTag, name := [] }
    | c :: _ =>
      let ty : TagType :=
        if c = '#' then .sectionBegin
        else if c = '^' then .sectionBeginInverted
        else if c = '/' then .sectionEnd
        else if c = '>' then .partialTag
        else if c = '&' then .unescapedVariable
        else if c = '!' then .comment
        else .variableTag
      if ty = .variableTag then { type := ty, name := contents }
      else { type := ty, name := trim (contents.drop 1) }

/-- Embeds the `tagIsUnescapedVar` condition of the parse loop (line 506):
current delimiters cached as default, tag start not at the final two bytes,
and the character right after the begin delimiter equal to its first
character. -/
def tagIsUnescapedVarB (isBrace : Bool) (input : Str) (ts : Nat)
    (delims : DelimiterSet) : Bool :=
  isBrace && decide (ts ≠ input.length - 2)
    && decide (charAt input (ts + delims.dbegin.length) = charAt delims.dbegin 0)

/-- One open section of the parse loop: its begin tag, the tag's byte offset,
the offset right after the begin tag's closing delimiter (`sectionStarts`),
and the children collected so far. -/
structure OpenSection where
  tag : Tag
  position : Nat
  start : Nat
  children : List Component

/-- Result of `parse`: the root's children, the context's delimiter set as
the parse left it, and the error message (empty iff the parse succeeded). -/
structure ParseOut where
  children : List Component
  delims : DelimiterSet
  errorMessage : Str

/-- Appends a finished component to `sections.back()->children`: the top
open section if one exists, else the root. -/
def appendChild (root : List Component) (frames : List OpenSection)
    (c : Component) : List Component × List OpenSection :=
  match frames with
  | [] => (root ++ [c], [])
  | f :: rest => (root, { f with children := f.children ++ [c] } :: rest)

/-- Folds a closed component upward through the remaining open sections. -/
def closeFramesAux : List Component → Component → List OpenSection → List Component
  | root, c, [] => root ++ [c]
  | root, c, g :: rest =>
    closeFramesAux root (Component.mk [] g.tag (g.children ++ [c]) g.position) rest

/-- Closes the still-open sections at the end of the scan.  In the source the
begin component was appended to its parent when opened and grew in place, so
the final tree holds each unclosed section with whatever children it
collected; this reproduces that tree. -/
def closeFrames : List Component → List OpenSection → List Component
  | root, [] => root
  | root, f :: rest =>
    closeFramesAux root (Component.mk [] f.tag f.children f.position) rest

mutual

/-- Callback of the post-scan `walk` (lines 561-573) applied to one node:
a section node whose last child is not a matching `SectionEnd` yields the
`Unclosed section` error; otherwise the walk descends.  The callback's
`pop_back` acts on the loop copy (`for (auto childComp : ...)` iterates by
value), so the descent skips the popped last child while the retained tree
is never modified. -/
def checkComponent : Nat → Component → Option Str
  | 0, _ => none
  | fuel + 1, c =>
    if c.tag.isSectionBegin then
      match c.children.getLast? with
      | some lastC =>
        if lastC.tag.isSectionEnd && lastC.tag.name = c.tag.name then
          checkComponents fuel c.children.dropLast
        else some ("Unclosed section \"".data ++ c.tag.name ++ "\" at ".data ++ natToStr c.position)
      | none => some ("Unclosed section \"".data ++ c.tag.name ++ "\" at ".data ++ natToStr c.position)
    else checkComponents fuel c.children
  termination_by structural fuel => fuel

/-- Depth-first traversal of a child list by the post-scan walk; the first
error stops the walk. -/
def checkComponents : Nat → List Component → Option Str
  | 0, _ => none
  | fuel + 1, cs =>
    match cs with
    | [] => none
    | c :: rest =>
      match checkComponent fuel c with
      | some e => some e
      | none => checkComponents fuel rest
  termination_by structural fuel => fuel

end

/-- Shared exit of the parse loop: close the open sections into the retained
tree and run the post-scan unclosed-section check. -/
def finishParse (input : Str) (delims : DelimiterSet) (root : List Component)
    (frames : List OpenSection) : ParseOut :=
  let children := closeFrames root frames
  match checkComponents (2 * input.length + 8) children with
  | some e => ⟨children, delims, e⟩
  | none => ⟨children, delims, []⟩

/-- Embeds the scan loop of `parse` (lines 477-577).  `isBrace` caches
`ctx.delimiterSet.isDefault()` as `currentDelimiterIsBrace` does; `root` and
`frames` mirror the `sections` stack (root at the bottom).  The loop always
advances the input position, so `input.length + 1` units of fuel suffice. -/
def parseLoop (input : Str) :
    Nat → Nat → DelimiterSet → Bool → List Component → List OpenSection → ParseOut
  | 0, _, delims, _, root, frames => finishParse input delims root frames
  | fuel + 1, pos, delims, isBrace, root, frames =>
    if pos = input.length then finishParse input delims root frames
    else
      match strFind input delims.dbegin pos with
      | none =>
        let rf := appendChild root frames
          (Component.mk (subStr input pos (input.length - pos)) {} [] pos)
        finishParse input delims rf.1 rf.2
      | some ts =>
        let rf1 :=
          if ts ≠ pos then
            appendChild root frames (Component.mk (subStr input pos (ts - pos)) {} [] pos)
          else (root, frames)
        let tcs := ts + delims.dbegin.length
        let tagUnesc := tagIsUnescapedVarB isBrace input ts delims
        let currentTagDelimiterEnd : Str := if tagUnesc then ['}', '}', '}'] else delims.dend
        let tcs2 := if tagUnesc then tcs + 1 else tcs
        match strFind input currentTagDelimiterEnd tcs2 with
        | none =>
          ⟨closeFrames rf1.1 rf1.2, delims, "Unclosed tag at ".data ++ natToStr ts⟩
        | some te =>
          let tagContents := trim (subStr input tcs2 (te - tcs2))
          let nextPos := te + currentTagDelimiterEnd.length
          if tagContents ≠ [] ∧ charAt tagContents 0 = '=' then
            match parseSetDelimiterTag tagContents with
            | none =>
              ⟨closeFrames rf1.1 rf1.2, delims,
                "Invalid set delimiter tag at ".data ++ natToStr ts⟩
            | some newDelims =>
              let comp := Component.mk [] { type := .setDelimiter, delimiterSet := some newDelims } [] ts
              let rf2 := appendChild rf1.1 rf1.2 comp
              parseLoop input fuel nextPos newDelims newDelims.isDefault rf2.1 rf2.2
          else
            let tag := parseTagContents tagUnesc tagContents
            let comp := Component.mk [] tag [] ts
            if tag.isSectionBegin then
              parseLoop input fuel nextPos delims isBrace rf1.1
                ({ tag := tag, position := ts, start := nextPos, children := [] } :: rf1.2)
            else if tag.isSectionEnd then
              match rf1.2 with
              | [] =>
                let rf2 := appendChild rf1.1 [] comp
                ⟨closeFrames rf2.1 rf2.2, delims,
                  "Unopened section \"".data ++ tag.name ++ "\" at ".data ++ natToStr ts⟩
              | f :: rest =>
                let closedTag := { f.tag with sectionText := some (subStr input f.start (ts - f.start)) }
                let closed := Component.mk [] closedTag (f.children ++ [comp]) f.position
                let rf2 := appendChild rf1.1 rest closed
                parseLoop input fuel nextPos delims isBrace rf2.1 rf2.2
            else
              let rf2 := appendChild rf1.1 rf1.2 comp
              parseLoop input fuel nextPos delims isBrace rf2.1 rf2.2

/-- Embeds `parse(input, ctx)` for a context holding the given delimiter
set. -/
def parse (input : Str) (delims : DelimiterSet) : ParseOut :=
  parseLoop input (input.length + 1) 0 delims delims.isDefault [] []

/-- Embeds the public constructor `BasicMustache(input)`: parse with a fresh
context carrying the default delimiters. -/
def compile (input : Str) : ParseOut :=
  parse input defaultDelimiters

/-- Embeds `WalkControl` (lines 579-583). -/
inductive WalkControl where
  | continueW
  | stopW
  | skipW
deriving DecidableEq

/-- Mutable state threaded through a render: the context's frame stack
(innermost first) and delimiter set, the output accumulated by the shared
write handler, and the errorMessage field of the template instance whose
walk is running. -/
structure RS where
  items : List Data
  delims : DelimiterSet
  out : Str
  err : Str

mutual

/-- Embeds `renderComponent` (lines 709-767).  Sub-templates of partials are
parsed with a fresh default-delimiter context and rendered under the current
context; on a failing sub-parse or sub-render the sub-template's message is
copied into this instance's `err` and `stopW` is returned. -/
def renderComponent : Nat → RS → Component → RS × WalkControl
  | 0, rs, _ => (rs, .continueW)
  | fuel + 1, rs, comp =>
    if comp.isText then ({ rs with out := rs.out ++ comp.text }, .continueW)
    else
    match comp.tag.type with
    | .variableTag | .unescapedVariable =>
      match ctxGet rs.items comp.tag.name with
      | none => (rs, .continueW)
      | some var =>
        let r := renderVariable fuel rs var (comp.tag.type = TagType.variableTag)
        if r.2 then (r.1, .continueW) else (r.1, .stopW)
    | .sectionBegin =>
      match ctxGet rs.items comp.tag.name with
      | some var =>
        if var.isLambda then
          let r := renderLambda fuel rs false (comp.tag.sectionText.getD []) true var.lambdaFn
          if r.2 then (r.1, .skipW) else (r.1, .stopW)
        else if !var.isFalse && !var.isEmptyList then
          (renderSection fuel rs comp (some var), .skipW)
        else (rs, .skipW)
      | none => (rs, .skipW)
    | .sectionBeginInverted =>
      match ctxGet rs.items comp.tag.name with
      | none => (renderSection fuel rs comp none, .skipW)
      | some var =>
        if var.isFalse || var.isEmptyList then
          (renderSection fuel rs comp (some var), .skipW)
        else (rs, .skipW)
    | .partialTag =>
      match ctxGetPartial rs.items comp.tag.name with
      | some var =>
        if var.isPartialType then
          let sub := parse var.partialSrc defaultDelimiters
          if sub.errorMessage ≠ [] then ({ rs with err := sub.errorMessage }, .stopW)
          else
            let rs1 := renderChildren fuel { rs with err := [] } sub.children
            if rs1.err ≠ [] then (rs1, .stopW)
            else ({ rs1 with err := rs.err }, .continueW)
        else (rs, .continueW)
      | none => (rs, .continueW)
    | .setDelimiter =>
      ({ rs with delims := comp.tag.delimiterSet.getD defaultDelimiters }, .continueW)
    | _ => (rs, .continueW)
  termination_by structural fuel => fuel

/-- Embeds `renderVariable` (lines 786-794). -/
def renderVariable : Nat → RS → Data → Bool → RS × Bool
  | 0, rs, _, _ => (rs, true)
  | fuel + 1, rs, var, escaped =>
    if var.isString then
      ({ rs with out := rs.out ++ (if escaped then escape var.stringValue else var.stringValue) },
        true)
    else if var.isLambda then renderLambda fuel rs escaped [] false var.lambdaFn
    else (rs, true)
  termination_by structural fuel => fuel

/-- Embeds `renderLambda` (lines 769-784).  The lambda's returned string is
parsed with the current context's delimiter state when `parseWithSameContext`
(sections) and with a fresh default context otherwise (variables); its render
goes to a local stream which is appended (escaped or not) to the shared
output only when the sub-template stays valid. -/
def renderLambda : Nat → RS → Bool → Str → Bool → (Str → Str) → RS × Bool
  | 0, rs, _, _, _, _ => (rs, true)
  | fuel + 1, rs, escaped, text, parseWithSameContext, lam =>
    let lambdaResult := lam text
    let sub :=
      if parseWithSameContext then parse lambdaResult rs.delims
      else parse lambdaResult defaultDelimiters
    let rs0 := if parseWithSameContext then { rs with delims := sub.delims } else rs
    if sub.errorMessage ≠ [] then ({ rs0 with err := sub.errorMessage }, false)
    else
      let rs1 := renderChildren fuel { rs0 with out := [], err := [] } sub.children
      if rs1.err ≠ [] then ({ rs1 with out := rs.out }, false)
      else
        ({ rs1 with out := rs.out ++ (if escaped then escape rs1.out else rs1.out),
                    err := rs.err }, true)
  termination_by structural fuel => fuel

/-- Embeds `renderSection` (lines 796-811): iterate a non-empty list pushing
each element, push the value itself for any other resolved value, and walk
the body with no push when the section resolved to nothing (inverted
sections on an absent name).  `ContextPusher` pops the front frame on every
exit path. -/
def renderSection : Nat → RS → Component → Option Data → RS
  | 0, rs, _, _ => rs
  | fuel + 1, rs, incomp, var =>
    match var with
    | some v =>
      if v.isNonEmptyList then renderSectionList fuel rs incomp v.listValue
      else
        let rs1 := renderChildren fuel { rs with items := v :: rs.items } incomp.children
        { rs1 with items := rs1.items.drop 1 }
    | none => renderChildren fuel rs incomp.children
  termination_by structural fuel => fuel

/-- The `for (item : var->list())` loop of `renderSection`: one body walk per
element under a scoped push. -/
def renderSectionList : Nat → RS → Component → List Data → RS
  | 0, rs, _, _ => rs
  | fuel + 1, rs, incomp, elems =>
    match elems with
    | [] => rs
    | d :: rest =>
      let rs1 := renderChildren fuel { rs with items := d :: rs.items } incomp.children
      renderSectionList fuel { rs1 with items := rs1.items.drop 1 } incomp rest
  termination_by structural fuel => fuel

/-- Embeds `walkChildren` (lines 590-596) with the render callback: process
each child with `walkComponent`, stopping as soon as one does not yield
`Continue`. -/
def renderChildren : Nat → RS → List Component → RS
  | 0, rs, _ => rs
  | fuel + 1, rs, comps =>
    match comps with
    | [] => rs
    | c :: rest =>
      let r := renderWalkComponent fuel rs c
      if r.2 = WalkControl.continueW then renderChildren fuel r.1 rest else r.1
  termination_by structural fuel => fuel

/-- Embeds `walkComponent` (lines 598-617) with the render callback: run the
callback, convert `Skip` to `Continue` without descending, and otherwise
descend into the children. -/
def renderWalkComponent : Nat → RS → Component → RS × WalkControl
  | 0, rs, _ => (rs, .continueW)
  | fuel + 1, rs, comp =>
    let r := renderComponent fuel rs comp
    match r.2 with
    | .stopW => (r.1, .stopW)
    | .skipW => (r.1, .continueW)
    | .continueW => renderWalkList fuel r.1 comp.children
  termination_by structural fuel => fuel

/-- Inner child loop of `walkComponent`: `Stop` aborts, `Skip` breaks the
loop leaving `Continue`. -/
def renderWalkList : Nat → RS → List Component → RS × WalkControl
  | 0, rs, _ => (rs, .continueW)
  | fuel + 1, rs, comps =>
    match comps with
    | [] => (rs, .continueW)
    | c :: rest =>
      let r := renderWalkComponent fuel rs c
      match r.2 with
      | .stopW => (r.1, .stopW)
      | .skipW => (r.1, .continueW)
      | .continueW => renderWalkList fuel r.1 rest
  termination_by structural fuel => fuel

end

/-- Fuel for whole-template renders of the concrete examples below; renders
are nested only as deeply as their partial and lambda chains, far below this
bound. -/
def renderFuel : Nat := 1000

/-- Embeds `render(data, handler)` (lines 321-324): a fresh context holding
the root data frame and the default delimiters. -/
def renderRS (t : ParseOut) (d : Data) : RS :=
  renderChildren renderFuel ⟨[d], defaultDelimiters, [], []⟩ t.children

/-- Output string of a render, as collected by the write handler. -/
def renderOut (t : ParseOut) (d : Data) : Str :=
  (renderRS t d).out

set_option maxRecDepth 100000
set_option maxHeartbeats 2000000

/-- C6. For every string s and object x ↦ s, the template with the escaped
variable tag renders `escape s`, the triple-mustache tag renders s verbatim,
and the ampersand form renders the same as the triple-mustache form; the
final conjunct evaluates `escape` on the five replaced characters and a
plain one.  (Template literals below spell the braces as \x7b and \x7d.) -/
theorem mustache_c6_theorem :
    (∀ s : Str,
      renderOut (compile "\x7b\x7bx\x7d\x7d".data) (Data.object [("x".data, Data.string s)]) =
        escape s) ∧
    (∀ s : Str,
      renderOut (compile "\x7b\x7b\x7bx\x7d\x7d\x7d".data)
        (Data.object [("x".data, Data.string s)]) = s) ∧
    (∀ s : Str,
      renderOut (compile "\x7b\x7b&x\x7d\x7d".data) (Data.object [("x".data, Data.string s)]) =
        renderOut (compile "\x7b\x7b\x7bx\x7d\x7d\x7d".data)
          (Data.object [("x".data, Data.string s)])) ∧
    escape "&<>\"'x".data = "&amp;&lt;&gt;&quot;&apos;x".data :=
  ⟨fun _ => rfl, fun _ => rfl, fun _ => rfl, by decide⟩

/-- C7. The three parse errors carry the stated messages with the byte
offset of the offending tag's start, and the first error wins: an unopened
section before an unclosed tag reports only the former.  A nonempty
errorMessage is exactly what `isValid() == false` means. -/
theorem mustache_c7_theorem :
    (compile "abc\x7b\x7bunterminated".data).errorMessage = "Unclosed tag at 3".data ∧
    (compile "\x7b\x7b#a\x7d\x7dx".data).errorMessage =
      "Unclosed section \"a\" at 0".data ∧
    (compile "\x7b\x7b/a\x7d\x7d".data).errorMessage =
      "Unopened section \"a\" at 0".data ∧
    (compile "\x7b\x7b/a\x7d\x7d\x7b\x7boops".data).errorMessage =
      "Unopened section \"a\" at 0".data := by
  refine ⟨by decide, by decide, by decide, by decide⟩

/-- C3 (code bug).  On the input with one properly closed section the parse
succeeds (empty errorMessage), yet the retained section node still holds its
matching SectionEnd as its last child: the post-scan walk iterates
`for (auto childComp : comp.children)` by value, so its `pop_back` mutates a
copy and the discard never reaches the stored tree.  The SectionEnd child is
harmless at render time (it writes nothing), which the last conjunct
witnesses. -/
theorem mustache_c3_theorem :
    (compile "\x7b\x7b#a\x7d\x7dx\x7b\x7b/a\x7d\x7d".data).errorMessage = [] ∧
    ((compile "\x7b\x7b#a\x7d\x7dx\x7b\x7b/a\x7d\x7d".data).children.headD
        (Component.mk [] {} [] 0)).children.getLast?.map
      (fun c => (c.tag.type, c.tag.name)) = some (TagType.sectionEnd, "a".data) ∧
    renderOut (compile "\x7b\x7b#a\x7d\x7dx\x7b\x7b/a\x7d\x7d".data)
      (Data.object [("a".data, Data.trueV)]) = "x".data := by
  refine ⟨by decide, by decide, by decide⟩

/-- C9. A section whose name resolves to a Lambda: (1) the lambda receives
the verbatim section source (the conditional lambda observes the unrendered
bytes and answers "yes"); (2) its returned string is parsed with the
delimiter state the context holds at that point (the `<% %>` delimiters set
earlier apply to the lambda's output) and rendered under the current
context (it sees `n`); (3) the rendered result is written unescaped (the
`&` produced by the inner triple mustache stays a bare `&`). -/
theorem mustache_c9_theorem :
    renderOut (compile "\x7b\x7b#f\x7d\x7dhi \x7b\x7bn\x7d\x7d\x7b\x7b/f\x7d\x7d".data)
      (Data.object
        [("f".data, Data.lambda (fun t => if t = "hi \x7b\x7bn\x7d\x7d".data
            then "yes".data else "no".data)),
         ("n".data, Data.string "N".data)]) = "yes".data ∧
    renderOut (compile "\x7b\x7b=<% %>=\x7d\x7d<%#f%>x<%/f%>".data)
      (Data.object
        [("f".data, Data.lambda (fun _ => "<%n%>".data)),
         ("n".data, Data.string "N".data)]) = "N".data ∧
    renderOut (compile "\x7b\x7b#f\x7d\x7dz\x7b\x7b/f\x7d\x7d".data)
      (Data.object
        [("f".data, Data.lambda (fun _ => "\x7b\x7b\x7bamp\x7d\x7d\x7d".data)),
         ("amp".data, Data.string "&".data)]) = "&".data :=
  ⟨rfl, rfl, rfl⟩

/-- C1 counterexample.  With data `b ↦ False`, the inverted section body is
rendered, but not under the same context stack as outside: inside it the
implicit iterator resolves to the pushed False frame, so the inner section
over "." does not render, while rendering the same body outside the inverted
section (same data) does render it.  This refutes the claim's assertion
that no frame is pushed. -/
theorem mustache_c1_counterexample :
    renderOut
      (compile "\x7b\x7b^b\x7d\x7d\x7b\x7b#.\x7d\x7dIN\x7b\x7b/.\x7d\x7d\x7b\x7b/b\x7d\x7d".data)
      (Data.object [("b".data, Data.falseV)]) = [] ∧
    renderOut (compile "\x7b\x7b#.\x7d\x7dIN\x7b\x7b/.\x7d\x7d".data)
      (Data.object [("b".data, Data.falseV)]) = "IN".data := by
  refine ⟨by decide, by decide⟩

/-- C2 counterexample.  A lambda inside a section body fails to parse
(returns an unclosed tag); the outer errorMessage is set, yet the second
list iteration still renders "OK" and the text after the section still
renders "after": the failure does not halt the outer render, contradicting
the claim. -/
theorem mustache_c2_counterexample :
    (renderRS
        (compile "\x7b\x7b#xs\x7d\x7d\x7b\x7by\x7d\x7d\x7b\x7b/xs\x7d\x7dafter".data)
        (Data.object [("xs".data,
          Data.list
            [Data.object [("y".data, Data.lambda (fun _ => "\x7b\x7b".data))],
             Data.object [("y".data, Data.string "OK".data)]])])).out = "OKafter".data ∧
    (renderRS
        (compile "\x7b\x7b#xs\x7d\x7d\x7b\x7by\x7d\x7d\x7b\x7b/xs\x7d\x7dafter".data)
        (Data.object [("xs".data,
          Data.list
            [Data.object [("y".data, Data.lambda (fun _ => "\x7b\x7b".data))],
             Data.object [("y".data, Data.string "OK".data)]])])).err =
      "Unclosed tag at 0".data :=
  ⟨rfl, rfl⟩

theorem ctxGetLoop_eq_findSome? (items : List Data) (names : List Str) :
    ctxGetLoop items names = items.findSome? (fun it => resolvePath it names) := by
  induction items with
  | nil => rfl
  | cons d ds ih =>
    rw [ctxGetLoop, List.findSome?]
    cases resolvePath d names <;> simp [ih]

/-- C4. Dotted-name resolution: the name "." returns the innermost frame;
any other name is resolved per frame from the innermost outward, each frame
restarting from the first segment, and the first frame in which every
segment resolves supplies the value (`findSome?` over the frames), absent
when none does.  The concrete conjuncts check the two renders required by
the claim and the per-frame restart (the inner frame's `a` lacks `b`, so the
outer frame's `a.b` is found). -/
theorem mustache_c4_theorem :
    (∀ (d : Data) (ds : List Data), ctxGet (d :: ds) ['.'] = some d) ∧
    (∀ (items : List Data) (name : Str), name ≠ ['.'] →
      ctxGet items name =
        items.findSome? (fun it =>
          resolvePath it
            (if (splitD '.' name).isEmpty then [[]] else splitD '.' name))) ∧
    renderOut (compile "\x7b\x7ba.b.c\x7d\x7d".data)
      (Data.object [("a".data, Data.object
        [("b".data, Data.object [("c".data, Data.string "ok".data)])])]) = "ok".data ∧
    renderOut (compile "\x7b\x7ba.b\x7d\x7d".data)
      (Data.object [("a".data, Data.string "x".data)]) = [] ∧
    ctxGet
      [Data.object [("a".data, Data.string "x".data)],
       Data.object [("a".data, Data.object [("b".data, Data.string "ok".data)])]]
      "a.b".data = some (Data.string "ok".data) := by
  refine ⟨fun d ds => rfl, fun items name h => ?_, by decide, by decide, rfl⟩
  rw [ctxGet, if_neg h]
  exact ctxGetLoop_eq_findSome? items _

/-- Closed instance of the dotted-lookup law of C4 at the name "a.b" and a
single empty-object frame. -/
theorem mustache_c4_witness :
    "a.b".data ≠ ['.'] ∧
    ctxGet [Data.object []] "a.b".data =
      [Data.object []].findSome? (fun it =>
        resolvePath it
          (if (splitD '.' "a.b".data).isEmpty then [[]] else splitD '.' "a.b".data)) :=
  ⟨by decide, mustache_c4_theorem.2.1 [Data.object []] "a.b".data (by decide)⟩

/-- C5. The parse loop recognizes the triple-mustache form through
`tagIsUnescapedVarB`, whose cached-default flag makes it equal the claim's
condition: delimiters currently default, tag start not at the final two
bytes, and a `\x7b` right after the begin delimiter.  Concretely:
the triple form renders unescaped; its name is the whole trimmed contents
(here `&x`) with no sigil stripping; after a set-delimiter change the same
bytes are scanned as an ordinary tag (yielding `]` from the trailing text,
not an unescaped `x`); after delimiters are reset to default the form is
recognized again; and a begin delimiter on the final two bytes is an
unclosed tag, not a triple mustache. -/
theorem mustache_c5_theorem :
    (∀ (delims : DelimiterSet) (input : Str) (ts : Nat),
      tagIsUnescapedVarB delims.isDefault input ts delims =
        (delims.isDefault && decide (ts ≠ input.length - 2)
          && decide (charAt input (ts + 2) = '{'))) ∧
    renderOut (compile "\x7b\x7b\x7bx\x7d\x7d\x7d".data)
      (Data.object [("x".data, Data.string "<".data)]) = "<".data ∧
    renderOut (compile "\x7b\x7b\x7b&x\x7d\x7d\x7d".data)
      (Data.object [("&x".data, Data.string "<".data)]) = "<".data ∧
    renderOut (compile "\x7b\x7b=[[ ]]=\x7d\x7d[[[x]]]".data)
      (Data.object [("x".data, Data.string "<".data)]) = "]".data ∧
    renderOut (compile "\x7b\x7b=<% %>=\x7d\x7d<%=\x7b\x7b \x7d\x7d=%>\x7b\x7b\x7bx\x7d\x7d\x7d".data)
      (Data.object [("x".data, Data.string "<".data)]) = "<".data ∧
    (compile "\x7b\x7b".data).errorMessage = "Unclosed tag at 0".data := by
  refine ⟨fun delims input ts => ?_, by decide, by decide, by decide, by decide, by decide⟩
  cases hdef : delims.isDefault with
  | false => simp [tagIsUnescapedVarB]
  | true =>
    have hb : delims.dbegin = defaultBegin := by
      have h1 := hdef
      unfold DelimiterSet.isDefault at h1
      rw [Bool.and_eq_true, decide_eq_true_eq, decide_eq_true_eq] at h1
      exact h1.1
    simp [tagIsUnescapedVarB, hb, defaultBegin, charAt]

theorem dropWhile_cons_false {p : Char → Bool} :
    ∀ {l : Str} {a : Char} {t : Str}, l.dropWhile p = a :: t → p a = false := by
  intro l
  induction l with
  | nil => intro a t h; simp [List.dropWhile] at h
  | cons c cs ih =>
    intro a t h
    rw [List.dropWhile_cons] at h
    by_cases hc : p c = true
    · rw [if_pos hc] at h; exact ih h
    · rw [if_neg hc] at h
      injection h with h1 _
      subst h1
      exact Bool.eq_false_iff.mpr hc

theorem trim_getLast_false {s : Str} {a : Char} :
    (trim s).getLast? = some a → isspace a = false := by
  intro h
  unfold trim at h
  rw [List.getLast?_reverse] at h
  rcases hB : ((s.dropWhile isspace).reverse.dropWhile isspace) with _ | ⟨b, t⟩
  · rw [hB] at h; simp at h
  · rw [hB] at h
    simp only [List.head?_cons, Option.some.injEq] at h
    subst h
    exact dropWhile_cons_false hB

theorem trim_cons_false {s : Str} {a : Char} {t : Str} :
    trim s = a :: t → isspace a = false := by
  intro h
  have hh : (trim s).head? = some a := by rw [h]; rfl
  unfold trim at hh
  rw [List.head?_reverse] at hh
  set A := s.dropWhile isspace with hA
  have hAsplit := List.takeWhile_append_dropWhile (p := isspace) (l := A.reverse)
  rcases hB : A.reverse.dropWhile isspace with _ | ⟨b, u⟩
  · rw [hB] at hh; simp at hh
  · rw [hB] at hh
    have hlast : (A.reverse.takeWhile isspace ++ (b :: u)).getLast? = (b :: u).getLast? :=
      List.getLast?_append_cons _ b u
    rw [hB] at hAsplit
    rw [hAsplit] at hlast
    rw [List.getLast?_reverse] at hlast
    rcases hA2 : A with _ | ⟨c, v⟩
    · rw [hA2] at hAsplit; simp at hAsplit
    · have hc : isspace c = false := dropWhile_cons_false (hA.symm ▸ hA2)
      rw [hA2] at hlast
      simp only [List.head?_cons] at hlast
      have hac : some c = some a := by rw [hlast]; exact hh
      have : a = c := by injection hac with h3; exact h3.symm
      rw [this]
      exact hc

theorem drop_cons_charAt :
    ∀ (s : Str) (i : Nat) (b : Char) (t : Str),
      s.drop i = b :: t → charAt s i = b ∧ i < s.length := by
  intro s
  induction s with
  | nil => intro i b t h; simp at h
  | cons x xs ih =>
    intro i b t h
    cases i with
    | zero =>
      simp only [List.drop] at h
      injection h with h1 _
      subst h1
      exact ⟨rfl, by simp⟩
    | succ n =>
      simp only [List.drop] at h
      obtain ⟨h1, h2⟩ := ih n b t h
      exact ⟨h1, by simpa using Nat.succ_lt_succ h2⟩

theorem strFindAux_single_spec {s : Str} {c : Char} :
    ∀ (fuel i r : Nat), strFindAux s [c] i fuel = some r →
      r < s.length ∧ charAt s r = c := by
  intro fuel
  induction fuel with
  | zero => intro i r h; simp [strFindAux] at h
  | succ f ih =>
    intro i r h
    rw [strFindAux] at h
    by_cases hp : [c].isPrefixOf (s.drop i) = true
    · rw [if_pos hp] at h
      injection h with h1
      subst h1
      rcases hd : s.drop i with _ | ⟨b, t⟩
      · rw [hd] at hp; simp [List.isPrefixOf] at hp
      · rw [hd] at hp
        simp only [List.isPrefixOf, List.isPrefixOf_nil_left, Bool.and_true, beq_iff_eq] at hp
        obtain ⟨h1, h2⟩ := drop_cons_charAt s i b t hd
        exact ⟨h2, by rw [h1, hp]⟩
    · rw [if_neg hp] at h
      exact ih (i + 1) r h

theorem getLast?_charAt :
    ∀ (l : Str), l ≠ [] → l.getLast? = some (charAt l (l.length - 1)) := by
  intro l
  induction l with
  | nil => intro h; exact absurd rfl h
  | cons x xs ih =>
    intro _
    cases hx : xs with
    | nil => rfl
    | cons y ys =>
      have hne : xs ≠ [] := by rw [hx]; simp
      have := ih hne
      rw [List.getLast?_cons_cons, ← hx, this]
      have hlen : (x :: xs).length - 1 = xs.length - 1 + 1 := by
        rw [hx]; simp
      rw [hlen]
      rfl

theorem findFirstNotOfAux_isSome {s : Str} {c : Char} :
    ∀ (fuel i j : Nat), i ≤ j → j < s.length → charAt s j ≠ c →
      s.length + 1 - i ≤ fuel → (findFirstNotOfAux s c i fuel).isSome = true := by
  intro fuel
  induction fuel with
  | zero => intro i j hij hj _ hfu; omega
  | succ f ih =>
    intro i j hij hj hcj hfu
    rw [findFirstNotOfAux]
    have hi : i < s.length := Nat.lt_of_le_of_lt hij hj
    rw [if_pos hi]
    by_cases hci : charAt s i = c
    · rw [if_pos hci]
      have hne : i ≠ j := fun he => hcj (he ▸ hci)
      exact ih (i + 1) j (by omega) hj hcj (by omega)
    · rw [if_neg hci]; rfl

theorem findFirstNotOfAux_some_lt {s : Str} {c : Char} :
    ∀ (fuel i r : Nat), findFirstNotOfAux s c i fuel = some r → r < s.length := by
  intro fuel
  induction fuel with
  | zero => intro i r h; simp [findFirstNotOfAux] at h
  | succ f ih =>
    intro i r h
    rw [findFirstNotOfAux] at h
    by_cases hi : i < s.length
    · rw [if_pos hi] at h
      by_cases hci : charAt s i = c
      · rw [if_pos hci] at h; exact ih (i + 1) r h
      · rw [if_neg hci] at h; injection h with h1; omega
    · rw [if_neg hi] at h; exact absurd h (by simp)

/-- Core of claim C10: in a trimmed string, a space found by `find` is
always followed by some non-space character, because the trimmed string's
last character is not whitespace. -/
theorem trimmed_space_followed {s : Str} {sp : Nat}
    (h : strFind (trim s) [' '] 0 = some sp) :
    (findFirstNotOfFrom (trim s) ' ' (sp + 1)).isSome = true := by
  have hspec := strFindAux_single_spec ((trim s).length + 1 - 0) 0 sp h
  obtain ⟨hlt, hch⟩ := hspec
  have hne : trim s ≠ [] := by
    intro hnil
    rw [hnil] at hlt
    simp at hlt
  have hlast := getLast?_charAt (trim s) hne
  have hlspace : isspace (charAt (trim s) ((trim s).length - 1)) = false :=
    trim_getLast_false hlast
  have hlne : charAt (trim s) ((trim s).length - 1) ≠ ' ' := by
    intro he
    rw [he] at hlspace
    simp [isspace] at hlspace
  have hsp_ne : sp ≠ (trim s).length - 1 := by
    intro he
    exact hlne (he ▸ hch)
  unfold findFirstNotOfFrom
  exact findFirstNotOfAux_isSome ((trim s).length + 1 - (sp + 1)) (sp + 1)
    ((trim s).length - 1) (by omega) (by omega) hlne (by omega)

/-- C10. Whenever the earlier checks of `parseSetDelimiterTag` pass (length
at least 5, trailing `=`, and a space found in the trimmed interior), the
search for the first non-space after that space succeeds, so the source's
`assert(nonspace != npos)` never fires: trimming leaves no whitespace at the
interior's end, hence some non-space character follows any space in it. -/
theorem mustache_c10_theorem (contents : Str) (h5 : 5 ≤ contents.length)
    (hlast : contents.getLast? = some '=') (sp : Nat)
    (hsp : strFind (trim (subStr contents 1 (contents.length - 2))) [' '] 0 = some sp) :
    (findFirstNotOfFrom (trim (subStr contents 1 (contents.length - 2)))
      ' ' (sp + 1)).isSome = true :=
  trimmed_space_followed hsp

/-- Closed instance of C10 at the set-delimiter contents `=a b=`. -/
theorem mustache_c10_witness :
    5 ≤ ("=a b=".data : Str).length ∧
    ("=a b=".data : Str).getLast? = some '=' ∧
    strFind (trim (subStr "=a b=".data 1 (("=a b=".data : Str).length - 2))) [' '] 0 = some 1 ∧
    (findFirstNotOfFrom (trim (subStr "=a b=".data 1 (("=a b=".data : Str).length - 2)))
      ' ' 2).isSome = true :=
  ⟨by decide, by decide, by decide,
    mustache_c10_theorem "=a b=".data (by decide) (by decide) 1 (by decide)⟩

theorem strFindAux_single_isSome {s : Str} {c : Char} :
    ∀ (fuel i : Nat), s.length + 1 - i ≤ fuel →
      (strFindAux s [c] i fuel).isSome = (s.drop i).contains c := by
  intro fuel
  induction fuel with
  | zero =>
    intro i hfu
    have hle : s.length ≤ i := by omega
    rw [List.drop_eq_nil_of_le hle]
    rfl
  | succ f ih =>
    intro i hfu
    rw [strFindAux]
    rcases hd : s.drop i with _ | ⟨b, t⟩
    · have hle : s.length ≤ i := by
        have hlen := List.length_drop i s
        rw [hd] at hlen
        simp only [List.length_nil] at hlen
        omega
      have hp : (([c] : Str).isPrefixOf []) = false := rfl
      rw [hp]
      simp only [Bool.false_eq_true, if_false]
      rw [ih (i + 1) (by omega), List.drop_eq_nil_of_le (by omega : s.length ≤ i + 1)]
    · have ht : s.drop (i + 1) = t := by
        have h1 := List.drop_drop 1 i s
        rw [hd] at h1
        simp only [List.drop_succ_cons, List.drop_zero] at h1
        exact h1.symm
      by_cases hcb : (c == b) = true
      · have hp : (([c] : Str).isPrefixOf (b :: t)) = true := by
          simp [List.isPrefixOf, hcb]
        rw [hp]
        simp only [if_true]
        have hcont2 : (b :: t).contains c = true := by
          rw [List.contains_cons, hcb, Bool.true_or]
        rw [hcont2]
        rfl
      · have hp : (([c] : Str).isPrefixOf (b :: t)) = false := by
          simp only [List.isPrefixOf, List.isPrefixOf_nil_left, Bool.and_true]
          exact Bool.eq_false_iff.mpr hcb
        rw [hp]
        simp only [Bool.false_eq_true, if_false]
        rw [ih (i + 1) (by omega), ht]
        simp only [List.contains_cons, Bool.eq_false_iff.mpr hcb, Bool.false_or]

theorem strFind_single_contains (s : Str) (c : Char) :
    (strFind s [c] 0).isSome = s.contains c := by
  have h := strFindAux_single_isSome (s := s) (c := c) (s.length + 1 - 0) 0 (Nat.le_refl _)
  simpa [strFind] using h

theorem isSetDelimiterValid_eq_all (l : Str) :
    isSetDelimiterValid l = l.all (fun ch => !(isspace ch) && !(decide (ch = '='))) := by
  unfold isSetDelimiterValid
  congr 1
  funext ch
  rw [Bool.not_or, Bool.and_comm]

theorem subStr_drop (s : Str) (ns : Nat) : subStr s ns (s.length - ns) = s.drop ns := by
  unfold subStr
  rw [← List.length_drop]
  exact List.take_length _

/-- Acceptance condition of a set-delimiter tag, written from the claim's
words: contents at least 5 long ending in `=`; the interior (first and last
characters stripped, then trimmed) contains a space; the substring before
the first space and the substring from the first non-space after that space
to the end are each non-empty, with no whitespace and no `=`. -/
def specSetDelimAccept (contents : Str) : Bool :=
  decide (5 ≤ contents.length) && decide (contents.getLast? = some '=') &&
  (let interior := trim (subStr contents 1 (contents.length - 2))
   interior.contains ' ' &&
   match strFind interior [' '] 0 with
   | none => false
   | some sp =>
     match findFirstNotOfFrom interior ' ' (sp + 1) with
     | none => false
     | some ns =>
       decide (interior.take sp ≠ []) && decide (interior.drop ns ≠ []) &&
       (interior.take sp).all (fun ch => !(isspace ch) && !(decide (ch = '='))) &&
       (interior.drop ns).all (fun ch => !(isspace ch) && !(decide (ch = '='))))

theorem trim_charAt_zero_false {s : Str} (h : trim s ≠ []) :
    isspace (charAt (trim s) 0) = false := by
  rcases hint : trim s with _ | ⟨a, t⟩
  · exact absurd hint h
  · exact trim_cons_false hint

theorem take_ne_nil_of_ne {l : Str} {n : Nat} (hl : l ≠ []) (hn : n ≠ 0) :
    l.take n ≠ [] := by
  rcases l with _ | ⟨a, t⟩
  · exact absurd rfl hl
  · rcases n with _ | k
    · exact absurd rfl hn
    · simp

theorem drop_ne_nil_of_lt {l : Str} {n : Nat} (hn : n < l.length) :
    l.drop n ≠ [] := by
  intro hc
  have hlen := List.length_drop n l
  rw [hc] at hlen
  simp only [List.length_nil] at hlen
  omega

/-- C8. `parseSetDelimiterTag` accepts exactly the contents described by the
claim (the non-emptiness of both markers is forced by the trim invariants:
a trimmed interior never starts with the found space nor ends before some
non-space).  The concrete conjuncts check the parse-level failure message
with the tag's start offset (at 0 and at 1), and that an accepted tag
replaces the delimiters (the `<% %>` tag then resolves `x`). -/
theorem mustache_c8_theorem :
    (∀ contents : Str,
      (parseSetDelimiterTag contents).isSome = specSetDelimAccept contents) ∧
    (compile "\x7b\x7b=a=\x7d\x7d".data).errorMessage =
      "Invalid set delimiter tag at 0".data ∧
    (compile "x\x7b\x7b=| | |=\x7d\x7d".data).errorMessage =
      "Invalid set delimiter tag at 1".data ∧
    renderOut (compile "\x7b\x7b=<% %>=\x7d\x7d<%x%>".data)
      (Data.object [("x".data, Data.string "v".data)]) = "v".data := by
  refine ⟨fun contents => ?_, by decide, by decide, by decide⟩
  simp only [parseSetDelimiterTag, specSetDelimAccept]
  by_cases h5 : contents.length < 5
  · rw [if_pos h5]
    have hd5 : decide (5 ≤ contents.length) = false := by
      simp only [decide_eq_false_iff_not]
      omega
    rw [hd5]
    simp
  · rw [if_neg h5]
    have hd5 : decide (5 ≤ contents.length) = true := by
      simp only [decide_eq_true_eq]
      omega
    rw [hd5]
    have hne : contents ≠ [] := by
      intro hc
      rw [hc] at h5
      simp at h5
    have hgl := getLast?_charAt contents hne
    by_cases heq : charAt contents (contents.length - 1) = '='
    · rw [if_neg (not_not_intro heq)]
      have hdgl : decide (contents.getLast? = some '=') = true := by
        simp [hgl, heq]
      rw [hdgl]
      have hcont := strFind_single_contains
        (trim (subStr contents 1 (contents.length - 2))) ' '
      rcases hf : strFind (trim (subStr contents 1 (contents.length - 2))) [' '] 0 with _ | sp
      · simp
      · rw [hf] at hcont
        simp only [Option.isSome_some, Bool.true_eq] at hcont
        dsimp only
        rw [hcont]
        simp only [Bool.true_and]
        rcases hns : findFirstNotOfFrom (trim (subStr contents 1 (contents.length - 2)))
            ' ' (sp + 1) with _ | ns
        · simp
        · dsimp only
          obtain ⟨hsplt, hspch⟩ := strFindAux_single_spec _ 0 sp hf
          have hTne : trim (subStr contents 1 (contents.length - 2)) ≠ [] := by
            intro hc
            rw [hc] at hsplt
            simp at hsplt
          have hsp0 : sp ≠ 0 := by
            intro hz
            have h0 := trim_charAt_zero_false hTne
            rw [hz] at hspch
            rw [hspch] at h0
            simp [isspace] at h0
          have htake := take_ne_nil_of_ne hTne hsp0
          have hnslt := findFirstNotOfAux_some_lt _ (sp + 1) ns hns
          have hdrop := drop_ne_nil_of_lt hnslt
          have hb : subStr (trim (subStr contents 1 (contents.length - 2))) 0 sp =
              (trim (subStr contents 1 (contents.length - 2))).take sp := rfl
          rw [hb, subStr_drop, isSetDelimiterValid_eq_all, isSetDelimiterValid_eq_all,
            decide_eq_true htake, decide_eq_true hdrop]
          simp only [Bool.true_and]
          by_cases hv :
            (((trim (subStr contents 1 (contents.length - 2))).take sp).all
                (fun ch => !(isspace ch) && !(decide (ch = '='))) &&
              ((trim (subStr contents 1 (contents.length - 2))).drop ns).all
                (fun ch => !(isspace ch) && !(decide (ch = '=')))) = true
          · rw [if_pos hv, hv]
            rfl
          · rw [if_neg hv]
            exact (Bool.eq_false_iff.mpr hv).symm
    · rw [if_pos heq]
      have hdgl : decide (contents.getLast? = some '=') = false := by
        rw [hgl]
        simp only [decide_eq_false_iff_not]
        intro hc
        injection hc with hc2
        exact heq hc2
      rw [hdgl]
      simp

theorem notNonEmptyList_of_falseOrEmpty {v : Data}
    (h : (v.isFalse || v.isEmptyList) = true) : v.isNonEmptyList = false := by
  cases v <;> simp_all [Data.isFalse, Data.isEmptyList, Data.isNonEmptyList]

/-- C1 (amended).  For every inverted-section component, the body is walked
exactly when the name is absent, resolves to False, or resolves to an empty
list, and it is walked exactly once; when the name is absent no frame is
pushed, but when it resolves (to False or to an empty list) the resolved
value is pushed as the innermost frame for the body's walk and popped
afterwards, so name resolution inside the body sees that extra frame. -/
theorem mustache_c1_theorem (fuel : Nat) (rs : RS) (comp : Component)
    (ht : comp.tag.type = TagType.sectionBeginInverted) :
    renderComponent (fuel + 2) rs comp =
      match ctxGet rs.items comp.tag.name with
      | none => (renderChildren fuel rs comp.children, WalkControl.skipW)
      | some var =>
        if var.isFalse || var.isEmptyList then
          ({ renderChildren fuel { rs with items := var :: rs.items } comp.children with
              items :=
                (renderChildren fuel
                  { rs with items := var :: rs.items } comp.children).items.drop 1 },
            WalkControl.skipW)
        else (rs, WalkControl.skipW) := by
  have hnt : comp.isText = false := by
    simp [Component.isText, ht]
  show renderComponent (fuel + 1 + 1) rs comp = _
  rw [renderComponent, hnt]
  simp only [Bool.false_eq_true, if_false]
  rw [ht]
  dsimp only
  cases hg : ctxGet rs.items comp.tag.name with
  | none =>
    rw [renderSection]
  | some var =>
    dsimp only
    by_cases hfe : (var.isFalse || var.isEmptyList) = true
    · rw [hfe]
      simp only [if_true]
      rw [renderSection]
      dsimp only
      rw [notNonEmptyList_of_falseOrEmpty hfe]
      simp only [Bool.false_eq_true, if_false]
    · rw [Bool.eq_false_iff.mpr hfe]
      simp only [Bool.false_eq_true, if_false]

/-- Closed instance of the amended C1 law: an inverted section over an
absent name walks its (empty) body under the unchanged context stack. -/
theorem mustache_c1_witness :
    (Component.mk [] ⟨"b".data, TagType.sectionBeginInverted, none, none⟩ [] 0).tag.type
      = TagType.sectionBeginInverted ∧
    renderComponent 2 ⟨[Data.object []], defaultDelimiters, [], []⟩
      (Component.mk [] ⟨"b".data, TagType.sectionBeginInverted, none, none⟩ [] 0) =
      (⟨[Data.object []], defaultDelimiters, [], []⟩, WalkControl.skipW) :=
  ⟨rfl,
    mustache_c1_theorem 0 ⟨[Data.object []], defaultDelimiters, [], []⟩
      (Component.mk [] ⟨"b".data, TagType.sectionBeginInverted, none, none⟩ [] 0) rfl⟩

/-- C2 (amended).  A failing partial or lambda sub-parse/sub-render sets the
outer errorMessage to the sub-template's message and returns Stop, and a
Stop halts the walk it occurs in (later siblings of that walk are not
rendered).  But a section component always reports Skip to its enclosing
walk, so a failure inside a section body does not halt the enclosing walk:
components after the section (and later list iterations) still render. -/
theorem mustache_c2_theorem :
    (∀ (fuel : Nat) (rs : RS) (c : Component) (rest : List Component),
      (renderWalkComponent fuel rs c).2 = WalkControl.stopW →
      renderChildren (fuel + 1) rs (c :: rest) = (renderWalkComponent fuel rs c).1) ∧
    (∀ (fuel : Nat) (rs : RS) (comp : Component) (src : Str),
      comp.tag.type = TagType.partialTag →
      ctxGetPartial rs.items comp.tag.name = some (Data.partialV src) →
      (parse src defaultDelimiters).errorMessage ≠ [] →
      renderComponent (fuel + 1) rs comp =
        ({ rs with err := (parse src defaultDelimiters).errorMessage }, WalkControl.stopW)) ∧
    (∀ (fuel : Nat) (rs : RS) (comp : Component),
      comp.tag.type = TagType.sectionBegin →
      (∀ v, ctxGet rs.items comp.tag.name = some v → v.isLambda = false) →
      (renderComponent (fuel + 1) rs comp).2 = WalkControl.skipW) := by
  refine ⟨?_, ?_, ?_⟩
  · intro fuel rs c rest hstop
    simp [renderChildren, hstop]
  · intro fuel rs comp src htype hget herr
    have hnt : comp.isText = false := by
      simp [Component.isText, htype]
    rw [renderComponent, hnt]
    simp only [Bool.false_eq_true, if_false]
    rw [htype]
    dsimp only
    rw [hget]
    simp only [Data.isPartialType, Data.partialSrc, if_true]
    rw [if_pos herr]
  · intro fuel rs comp htype hl
    have hnt : comp.isText = false := by
      simp [Component.isText, htype]
    rw [renderComponent, hnt]
    simp only [Bool.false_eq_true, if_false]
    rw [htype]
    dsimp only
    cases hg : ctxGet rs.items comp.tag.name with
    | none => rfl
    | some v =>
      dsimp only
      rw [hl v hg]
      simp only [Bool.false_eq_true, if_false]
      by_cases h2 : (!v.isFalse && !v.isEmptyList) = true
      · rw [if_pos h2]
      · rw [if_neg h2]

/-- Closed instance of the amended C2 law: a partial producing an unclosed
tag makes the render copy the sub-parse error and stop its walk. -/
theorem mustache_c2_witness :
    (Component.mk [] ⟨"p".data, TagType.partialTag, none, none⟩ [] 0).tag.type
      = TagType.partialTag ∧
    ctxGetPartial [Data.object [("p".data, Data.partialV "\x7b\x7b".data)]]
      (Component.mk [] ⟨"p".data, TagType.partialTag, none, none⟩ [] 0).tag.name =
      some (Data.partialV "\x7b\x7b".data) ∧
    (parse "\x7b\x7b".data defaultDelimiters).errorMessage ≠ [] ∧
    renderComponent 1
      ⟨[Data.object [("p".data, Data.partialV "\x7b\x7b".data)]], defaultDelimiters, [], []⟩
      (Component.mk [] ⟨"p".data, TagType.partialTag, none, none⟩ [] 0) =
      (⟨[Data.object [("p".data, Data.partialV "\x7b\x7b".data)]], defaultDelimiters, [],
        (parse "\x7b\x7b".data defaultDelimiters).errorMessage⟩, WalkControl.stopW) :=
  ⟨rfl, rfl, by decide,
    mustache_c2_theorem.2.1 0
      ⟨[Data.object [("p".data, Data.partialV "\x7b\x7b".data)]], defaultDelimiters, [], []⟩
      (Component.mk [] ⟨"p".data, TagType.partialTag, none, none⟩ [] 0)
      "\x7b\x7b".data rfl rfl (by decide)⟩

end Mustache
